import Mathlib

/-!
Verification development for the Hangman repository (`src/hangman.py`).

A Python string is modeled as the list of its character code points
(`PyStr := List Nat`); the repository's answers and guesses are ASCII, so
`str.isalpha`, `str.lower` and `str.strip` are modeled on the ASCII range.
The `Game` class is modeled as a structure; methods that raise `ValueError`
return `Except GameError`, with one error constructor per raise site
(the spec's `InvalidAnswerError`, `InvalidLetterError`, `InvalidAttemptError`).
Python raises before mutating, so an `Except.error` result carries no
successor state: the game is unchanged by construction on failure.
-/

namespace Hangman

/-- A Python string, as the list of its character code points. -/
abbrev PyStr := List Nat

/-- `str.isalpha` for one character (ASCII range). -/
def isAlphaChar (c : Nat) : Bool :=
  decide ((65 ≤ c ∧ c ≤ 90) ∨ (97 ≤ c ∧ c ≤ 122))

/-- `str.lower` for one character (ASCII range). -/
def toLowerChar (c : Nat) : Nat :=
  if 65 ≤ c ∧ c ≤ 90 then c + 32 else c

/-- A lowercase ASCII letter. -/
def isLowerChar (c : Nat) : Bool :=
  decide (97 ≤ c ∧ c ≤ 122)

/-- `str.lower` on a whole string. -/
def pyLower (s : PyStr) : PyStr := s.map toLowerChar

/-- Python whitespace (the characters `str.strip` removes). -/
def isSpaceChar (c : Nat) : Bool :=
  c == 32 || c == 9 || c == 10 || c == 13 || c == 11 || c == 12

/-- `str.strip()`: drop whitespace from both ends. -/
def pyStrip (s : PyStr) : PyStr :=
  ((s.dropWhile isSpaceChar).reverse.dropWhile isSpaceChar).reverse

/-- Convenience: turn a Lean string literal into its code-point list. -/
def strToCodes (s : String) : PyStr := s.toList.map Char.toNat

/-- The placeholder character `_` used by `current_state`. -/
def placeholder : Nat := 95

/-- One constructor per `ValueError` site of the `Game` class, named after the
spec's error kinds. -/
inductive GameError where
  | invalidAnswer
  | invalidLetter
  | invalidAttempt
  deriving DecidableEq, Repr

/-- The state of `Game`: `self.answer` (identical to `self._chars` as a
sequence), `self.lives` (a Python `int`, which may go negative) and
`self.guessed_letters`. -/
structure Game where
  answer : PyStr
  lives : Int
  guessed : Finset Nat

/-- `Game.__init__`: rejects the empty answer (`not answer`), otherwise
starts with an empty guessed set. -/
def Game.new (answer : PyStr) (lives : Int) : Except GameError Game :=
  if answer = [] then .error .invalidAnswer
  else .ok { answer := answer, lives := lives, guessed := ∅ }

/-- `Game.current_state`: non-alphabetic characters and guessed letters
render as themselves, unguessed letters as `_`. -/
def Game.currentState (g : Game) : PyStr :=
  g.answer.map (fun ch =>
    if isAlphaChar ch = false then ch
    else if toLowerChar ch ∈ g.guessed then ch
    else placeholder)

/-- `sum(1 for ch in self._chars if ch.lower() == letter)`. -/
def occCount (answer : PyStr) (l : Nat) : Nat :=
  (answer.filter (fun ch => toLowerChar ch == l)).length

/-- `Game.reveal_count`: validates the letter, returns 0 if already guessed,
otherwise marks it guessed and returns its case-insensitive count. -/
def Game.revealCount (g : Game) (letter : PyStr) : Except GameError (Nat × Game) :=
  match letter with
  | [c] =>
    if isAlphaChar c = false then .error .invalidLetter
    else
      let l := toLowerChar c
      if l ∈ g.guessed then .ok (0, g)
      else .ok (occCount g.answer l, { g with guessed := insert l g.guessed })
  | _ => .error .invalidLetter

/-- `Game.guess_letter`: validates the letter; if already guessed, reports
whether it occurs in the answer with no state change; otherwise delegates to
`reveal_count` and decrements `lives` when the count is 0. -/
def Game.guessLetter (g : Game) (letter : PyStr) : Except GameError (Bool × Game) :=
  match letter with
  | [c] =>
    if isAlphaChar c = false then .error .invalidLetter
    else
      let l := toLowerChar c
      if l ∈ g.guessed then .ok ((pyLower g.answer).contains l, g)
      else
        match g.revealCount [l] with
        | .ok (count, g') =>
          if count > 0 then .ok (true, g')
          else .ok (false, { g' with lives := g'.lives - 1 })
        | .error e => .error e
  | _ => .error .invalidLetter

/-- The `for ch in self._chars: if ch.isalpha(): guessed.add(ch.lower())`
loop of `guess_full`. -/
def markAllGuessed (answer : PyStr) (s : Finset Nat) : Finset Nat :=
  answer.foldl (fun acc ch => if isAlphaChar ch = true then insert (toLowerChar ch) acc else acc) s

/-- `Game.guess_full`: `None` is rejected; a strip-and-lower match marks every
alphabetic answer character guessed; a mismatch costs one life. -/
def Game.guessFull (g : Game) (attempt : Option PyStr) : Except GameError (Bool × Game) :=
  match attempt with
  | none => .error .invalidAttempt
  | some a =>
    if pyLower (pyStrip a) = pyLower (pyStrip g.answer) then
      .ok (true, { g with guessed := markAllGuessed g.answer g.guessed })
    else
      .ok (false, { g with lives := g.lives - 1 })

/-- `Game.is_won`: every alphabetic character of the answer is guessed. -/
def Game.isWon (g : Game) : Bool :=
  g.answer.all (fun ch => !isAlphaChar ch || decide (toLowerChar ch ∈ g.guessed))

/-- `Game.is_lost`: `self.lives <= 0`. -/
def Game.isLost (g : Game) : Bool :=
  decide (g.lives ≤ 0)

/-- One operation of the `Game` interface, for statements about operation
sequences. -/
inductive Op where
  | revealCount (letter : PyStr)
  | guessLetter (letter : PyStr)
  | guessFull (attempt : Option PyStr)
  | currentState
  | isWon
  | isLost

/-- Apply one operation to a game; a raised `ValueError` leaves the state
unchanged (Python raises before mutating), and queries do not mutate. -/
def Game.applyOp (g : Game) : Op → Game
  | .revealCount l =>
    match g.revealCount l with
    | .ok (_, g') => g'
    | .error _ => g
  | .guessLetter l =>
    match g.guessLetter l with
    | .ok (_, g') => g'
    | .error _ => g
  | .guessFull a =>
    match g.guessFull a with
    | .ok (_, g') => g'
    | .error _ => g
  | .currentState => g
  | .isWon => g
  | .isLost => g

/-- Run a sequence of operations. -/
def Game.run (g : Game) (ops : List Op) : Game :=
  ops.foldl Game.applyOp g

/-! ### Helper lemmas about the character model -/

theorem toLowerChar_idem (c : Nat) : toLowerChar (toLowerChar c) = toLowerChar c := by
  unfold toLowerChar
  split
  · split <;> omega
  · rfl

theorem isAlphaChar_toLowerChar {c : Nat} (h : isAlphaChar c = true) :
    isAlphaChar (toLowerChar c) = true := by
  simp [isAlphaChar, toLowerChar] at *
  split <;> omega

theorem isLowerChar_toLowerChar {c : Nat} (h : isAlphaChar c = true) :
    isLowerChar (toLowerChar c) = true := by
  simp [isAlphaChar, isLowerChar, toLowerChar] at *
  split <;> omega

/-! ### Helper lemmas about `markAllGuessed` -/

theorem markAllGuessed_cons (a : Nat) (rest : PyStr) (s : Finset Nat) :
    markAllGuessed (a :: rest) s =
      markAllGuessed rest (if isAlphaChar a = true then insert (toLowerChar a) s else s) := by
  simp only [markAllGuessed, List.foldl_cons]

theorem subset_markAllGuessed (answer : PyStr) (s : Finset Nat) :
    s ⊆ markAllGuessed answer s := by
  induction answer generalizing s with
  | nil => simp [markAllGuessed]
  | cons a rest ih =>
    rw [markAllGuessed_cons]
    intro x hx
    apply ih
    split
    · exact Finset.mem_insert_of_mem hx
    · exact hx

theorem mem_markAllGuessed_of_mem {answer : PyStr} {ch : Nat} (hmem : ch ∈ answer)
    (halpha : isAlphaChar ch = true) (s : Finset Nat) :
    toLowerChar ch ∈ markAllGuessed answer s := by
  induction answer generalizing s with
  | nil => cases hmem
  | cons a rest ih =>
    rw [markAllGuessed_cons]
    rcases List.mem_cons.mp hmem with h | h
    · subst h
      apply subset_markAllGuessed
      simp [halpha]
    · exact ih h _

theorem markAllGuessed_lower {answer : PyStr} {s : Finset Nat}
    (hs : ∀ x ∈ s, isLowerChar x = true) :
    ∀ x ∈ markAllGuessed answer s, isLowerChar x = true := by
  induction answer generalizing s with
  | nil => simpa [markAllGuessed] using hs
  | cons a rest ih =>
    rw [markAllGuessed_cons]
    apply ih
    split
    · rename_i ha
      intro x hx
      rcases Finset.mem_insert.mp hx with h | h
      · subst h; exact isLowerChar_toLowerChar ha
      · exact hs x h
    · exact hs

/-- Closed form of `reveal_count` on a valid (single alphabetic) letter. -/
theorem revealCount_eq (g : Game) {c : Nat} (hc : isAlphaChar c = true) :
    g.revealCount [c] =
      if toLowerChar c ∈ g.guessed then .ok (0, g)
      else .ok (occCount g.answer (toLowerChar c),
        { g with guessed := insert (toLowerChar c) g.guessed }) := by
  by_cases hm : toLowerChar c ∈ g.guessed
  · simp [Game.revealCount, hc, hm]
  · simp [Game.revealCount, hc, hm]

/-- Closed form of `guess_letter` on a valid (single alphabetic) letter. -/
theorem guessLetter_eq (g : Game) {c : Nat} (hc : isAlphaChar c = true) :
    g.guessLetter [c] =
      if toLowerChar c ∈ g.guessed then
        .ok ((pyLower g.answer).contains (toLowerChar c), g)
      else if 0 < occCount g.answer (toLowerChar c) then
        .ok (true, { g with guessed := insert (toLowerChar c) g.guessed })
      else
        .ok (false,
          { g with lives := g.lives - 1, guessed := insert (toLowerChar c) g.guessed }) := by
  have h3 := isAlphaChar_toLowerChar hc
  by_cases hm : toLowerChar c ∈ g.guessed
  · simp [Game.guessLetter, hc, hm]
  · by_cases hcount : 0 < occCount g.answer (toLowerChar c)
    · simp [Game.guessLetter, Game.revealCount, toLowerChar_idem, hc, h3, hm, hcount]
    · simp [Game.guessLetter, Game.revealCount, toLowerChar_idem, hc, h3, hm, hcount]

theorem map_eq_self_of_forall {α : Type} {f : α → α} {l : List α}
    (h : ∀ x ∈ l, f x = x) : l.map f = l := by
  induction l with
  | nil => rfl
  | cons a rest ih =>
    simp only [List.map_cons, h a (List.mem_cons_self a rest),
      ih (fun x hx => h x (List.mem_cons_of_mem a hx))]

/-! ### Claim theorems -/

/-- C1: for every game and every single alphabetic letter not yet guessed,
`guess_letter` returns `true` with lives unchanged when the letter's
case-insensitive occurrence count in the answer is positive, and returns
`false` with lives decremented by exactly 1 when the count is 0. -/
theorem C1_guessLetter_fresh (g : Game) (c : Nat)
    (h1 : isAlphaChar c = true) (h2 : toLowerChar c ∉ g.guessed) :
    (0 < occCount g.answer (toLowerChar c) →
      ∃ g', g.guessLetter [c] = .ok (true, g') ∧ g'.lives = g.lives) ∧
    (occCount g.answer (toLowerChar c) = 0 →
      ∃ g', g.guessLetter [c] = .ok (false, g') ∧ g'.lives = g.lives - 1) := by
  have h3 := isAlphaChar_toLowerChar h1
  simp only [Game.guessLetter, Game.revealCount, toLowerChar_idem, h1, h2, h3]
  constructor
  · intro hpos
    simp [hpos]
  · intro hzero
    simp [hzero]

/-- C1 witness: `Game("apple", lives=5)`, guess `"a"` → true, lives stays 5;
the other conjunct is vacuous there. -/
theorem C1_guessLetter_fresh_witness :
    isAlphaChar 97 = true ∧
    toLowerChar 97 ∉ (∅ : Finset Nat) ∧
    ((0 < occCount (strToCodes "apple") (toLowerChar 97) →
      ∃ g', (Game.mk (strToCodes "apple") 5 ∅).guessLetter [97] = .ok (true, g') ∧
        g'.lives = (Game.mk (strToCodes "apple") 5 ∅).lives) ∧
    (occCount (strToCodes "apple") (toLowerChar 97) = 0 →
      ∃ g', (Game.mk (strToCodes "apple") 5 ∅).guessLetter [97] = .ok (false, g') ∧
        g'.lives = (Game.mk (strToCodes "apple") 5 ∅).lives - 1)) :=
  ⟨by decide, by decide,
    C1_guessLetter_fresh (Game.mk (strToCodes "apple") 5 ∅) 97 (by decide) (by decide)⟩

/-- C2: `guess_full` with an attempt equal to the answer after
whitespace-trimming and case-folding returns `true`, keeps lives (and the
answer) unchanged, marks every alphabetic answer character guessed, and leaves
the game won with `current_state` fully revealing the answer. -/
theorem C2_guessFull_match (g : Game) (a : PyStr)
    (hmatch : pyLower (pyStrip a) = pyLower (pyStrip g.answer)) :
    ∃ g', g.guessFull (some a) = .ok (true, g') ∧
      g'.lives = g.lives ∧ g'.answer = g.answer ∧
      (∀ ch ∈ g.answer, isAlphaChar ch = true → toLowerChar ch ∈ g'.guessed) ∧
      g'.isWon = true ∧ g'.currentState = g.answer := by
  refine ⟨{ g with guessed := markAllGuessed g.answer g.guessed }, ?_, rfl, rfl, ?_, ?_, ?_⟩
  · simp [Game.guessFull, hmatch]
  · intro ch hch ha
    exact mem_markAllGuessed_of_mem hch ha _
  · simp only [Game.isWon, List.all_eq_true]
    intro ch hch
    rcases h : isAlphaChar ch with _ | _
    · simp [h]
    · simp [h, mem_markAllGuessed_of_mem hch h]
  · unfold Game.currentState
    refine map_eq_self_of_forall ?_
    intro ch hch
    rcases h : isAlphaChar ch with _ | _
    · simp [h]
    · simp [h, mem_markAllGuessed_of_mem hch h]

/-- C2 witness: `Game("hello world", 4).guess_full("Hello World ")`. -/
theorem C2_guessFull_match_witness :
    pyLower (pyStrip (strToCodes " Hello World")) =
      pyLower (pyStrip (Game.mk (strToCodes "hello world") 4 ∅).answer) ∧
    ∃ g', (Game.mk (strToCodes "hello world") 4 ∅).guessFull
        (some (strToCodes " Hello World")) = .ok (true, g') ∧
      g'.lives = (Game.mk (strToCodes "hello world") 4 ∅).lives ∧
      g'.answer = (Game.mk (strToCodes "hello world") 4 ∅).answer ∧
      (∀ ch ∈ (Game.mk (strToCodes "hello world") 4 ∅).answer,
        isAlphaChar ch = true → toLowerChar ch ∈ g'.guessed) ∧
      g'.isWon = true ∧ g'.currentState = (Game.mk (strToCodes "hello world") 4 ∅).answer :=
  ⟨by decide,
    C2_guessFull_match (Game.mk (strToCodes "hello world") 4 ∅)
      (strToCodes " Hello World") (by decide)⟩

/-- C3: `guess_full` with a non-matching attempt decrements lives by exactly
1, returns `false`, and leaves the guessed set and the answer unchanged. -/
theorem C3_guessFull_mismatch (g : Game) (a : PyStr)
    (hmis : pyLower (pyStrip a) ≠ pyLower (pyStrip g.answer)) :
    ∃ g', g.guessFull (some a) = .ok (false, g') ∧
      g'.lives = g.lives - 1 ∧ g'.guessed = g.guessed ∧ g'.answer = g.answer := by
  exact ⟨{ g with lives := g.lives - 1 }, by simp [Game.guessFull, hmis], rfl, rfl, rfl⟩

/-- C3 witness: `Game("python", 3).guess_full("java")`. -/
theorem C3_guessFull_mismatch_witness :
    pyLower (pyStrip (strToCodes "java")) ≠
      pyLower (pyStrip (Game.mk (strToCodes "python") 3 ∅).answer) ∧
    ∃ g', (Game.mk (strToCodes "python") 3 ∅).guessFull (some (strToCodes "java")) =
        .ok (false, g') ∧
      g'.lives = (Game.mk (strToCodes "python") 3 ∅).lives - 1 ∧
      g'.guessed = (Game.mk (strToCodes "python") 3 ∅).guessed ∧
      g'.answer = (Game.mk (strToCodes "python") 3 ∅).answer :=
  ⟨by decide,
    C3_guessFull_mismatch (Game.mk (strToCodes "python") 3 ∅) (strToCodes "java") (by decide)⟩

/-- C4 counterexample: the claim says `guessFull("")` returns `false` for
every game, but `Game.__init__` accepts the whitespace-only answer `" "`
(it is a non-empty string), and there `"".strip().lower() == " ".strip().lower()`
holds, so `guess_full("")` matches and returns `true`. -/
theorem C4_empty_attempt_cex :
    (Game.new (strToCodes " ") 6).map
      (fun g => (g.guessFull (some (strToCodes ""))).map Prod.fst) =
      .ok (.ok true) := by
  rfl

/-- C4 (amended): `guess_full` fails with `InvalidAttemptError` when and only
when the attempt is absent; every present attempt (the empty string included)
is valid; and `guessFull("")` returns `false` whenever the answer is not
whitespace-only (for a whitespace-only answer it matches and returns `true`). -/
theorem C4_guessFull_validation (g : Game) (hws : pyStrip g.answer ≠ []) :
    g.guessFull none = .error .invalidAttempt ∧
    (∀ a, ∃ r, g.guessFull (some a) = .ok r) ∧
    (∃ g', g.guessFull (some []) = .ok (false, g')) := by
  refine ⟨rfl, ?_, ?_⟩
  · intro a
    by_cases h : pyLower (pyStrip a) = pyLower (pyStrip g.answer)
    · exact ⟨(true, { g with guessed := markAllGuessed g.answer g.guessed }),
        by simp [Game.guessFull, h]⟩
    · exact ⟨(false, { g with lives := g.lives - 1 }), by simp [Game.guessFull, h]⟩
  · have hne : pyLower (pyStrip ([] : PyStr)) ≠ pyLower (pyStrip g.answer) := by
      intro h
      apply hws
      have hnil : pyLower (pyStrip ([] : PyStr)) = [] := rfl
      rw [hnil] at h
      exact List.map_eq_nil_iff.mp h.symm
    exact ⟨{ g with lives := g.lives - 1 }, by simp [Game.guessFull, hne]⟩

/-- C4 witness: `Game("apple", 6)` has a non-whitespace answer. -/
theorem C4_guessFull_validation_witness :
    pyStrip (Game.mk (strToCodes "apple") 6 ∅).answer ≠ [] ∧
    ((Game.mk (strToCodes "apple") 6 ∅).guessFull none = .error .invalidAttempt ∧
    (∀ a, ∃ r, (Game.mk (strToCodes "apple") 6 ∅).guessFull (some a) = .ok r) ∧
    (∃ g', (Game.mk (strToCodes "apple") 6 ∅).guessFull (some []) = .ok (false, g'))) :=
  ⟨by decide, C4_guessFull_validation (Game.mk (strToCodes "apple") 6 ∅) (by decide)⟩

/-- C5: for every non-empty answer `A` and lives `L > 0`, the fresh game's
`current_state` has the same length as `A`; each non-alphabetic position shows
`A`'s character; each alphabetic position shows the placeholder when its
case-folded letter is not in the guessed set and `A`'s original-case
character when it is. -/
theorem C5_currentState_shape (A : PyStr) (L : Int) (hA : A ≠ []) (_hL : 0 < L) :
    ∃ g, Game.new A L = .ok g ∧
      (Game.currentState g).length = A.length ∧
      ∀ (i : Nat) (a : Nat), A[i]? = some a →
        (isAlphaChar a = false → (Game.currentState g)[i]? = some a) ∧
        (isAlphaChar a = true → toLowerChar a ∉ g.guessed →
          (Game.currentState g)[i]? = some placeholder) ∧
        (isAlphaChar a = true → toLowerChar a ∈ g.guessed →
          (Game.currentState g)[i]? = some a) := by
  refine ⟨⟨A, L, ∅⟩, by simp [Game.new, hA], by simp [Game.currentState], ?_⟩
  intro i a ha
  unfold Game.currentState
  simp only [List.getElem?_map, ha, Option.map_some]
  refine ⟨fun h => by simp [h], fun h hm => by simp [h, hm],
    fun h hm => absurd hm (Finset.not_mem_empty _)⟩

/-- C5 witness: `Game("Cat!", 6)` (with no letter guessed, every alphabetic
position shows the placeholder and `!` shows itself). -/
theorem C5_currentState_shape_witness :
    strToCodes "Cat!" ≠ [] ∧ (0 : Int) < 6 ∧
    ∃ g, Game.new (strToCodes "Cat!") 6 = .ok g ∧
      (Game.currentState g).length = (strToCodes "Cat!").length ∧
      ∀ (i : Nat) (a : Nat), (strToCodes "Cat!")[i]? = some a →
        (isAlphaChar a = false → (Game.currentState g)[i]? = some a) ∧
        (isAlphaChar a = true → toLowerChar a ∉ g.guessed →
          (Game.currentState g)[i]? = some placeholder) ∧
        (isAlphaChar a = true → toLowerChar a ∈ g.guessed →
          (Game.currentState g)[i]? = some a) :=
  ⟨by decide, by decide, C5_currentState_shape (strToCodes "Cat!") 6 (by decide) (by decide)⟩

/-- C6: a first `reveal_count` of a fresh letter returns its case-insensitive
occurrence count and grows the guessed set by exactly that letter (so by at
most 1); a repeated `reveal_count` returns 0 and changes nothing; and
`guess_letter` on an already-guessed letter returns whether the letter occurs
in the answer, leaving lives and the guessed set (the whole game) unchanged. -/
theorem C6_repeated_guess_idempotent (g : Game) (c : Nat) (h1 : isAlphaChar c = true) :
    (toLowerChar c ∉ g.guessed →
      ∃ g', g.revealCount [c] = .ok (occCount g.answer (toLowerChar c), g') ∧
        g'.guessed = insert (toLowerChar c) g.guessed ∧
        g'.guessed.card ≤ g.guessed.card + 1 ∧
        g'.lives = g.lives ∧ g'.answer = g.answer ∧
        g'.revealCount [c] = .ok (0, g')) ∧
    (toLowerChar c ∈ g.guessed →
      g.guessLetter [c] = .ok (decide (toLowerChar c ∈ pyLower g.answer), g)) := by
  constructor
  · intro h2
    refine ⟨{ g with guessed := insert (toLowerChar c) g.guessed },
      by simp [Game.revealCount, h1, h2], rfl, Finset.card_insert_le _ _, rfl, rfl, ?_⟩
    simp [Game.revealCount, h1]
  · intro h2
    simp [Game.guessLetter, h1, h2, List.contains, List.elem_eq_mem]

/-- C6 witness: `Game("banana")`, letter `"a"`: first reveal returns 3,
second returns 0; and on the already-guessed state, `guess_letter("a")`
returns true with no state change. -/
theorem C6_repeated_guess_idempotent_witness :
    isAlphaChar 97 = true ∧
    (toLowerChar 97 ∉ (∅ : Finset Nat) →
      ∃ g', (Game.mk (strToCodes "banana") 6 ∅).revealCount [97] =
          .ok (occCount (strToCodes "banana") (toLowerChar 97), g') ∧
        g'.guessed = insert (toLowerChar 97) (Game.mk (strToCodes "banana") 6 ∅).guessed ∧
        g'.guessed.card ≤ (Game.mk (strToCodes "banana") 6 ∅).guessed.card + 1 ∧
        g'.lives = (Game.mk (strToCodes "banana") 6 ∅).lives ∧
        g'.answer = (Game.mk (strToCodes "banana") 6 ∅).answer ∧
        g'.revealCount [97] = .ok (0, g')) ∧
    (toLowerChar 97 ∈ (Game.mk (strToCodes "banana") 6 ∅).guessed →
      (Game.mk (strToCodes "banana") 6 ∅).guessLetter [97] =
        .ok (decide (toLowerChar 97 ∈ pyLower (strToCodes "banana")),
          Game.mk (strToCodes "banana") 6 ∅)) :=
  ⟨by decide, C6_repeated_guess_idempotent (Game.mk (strToCodes "banana") 6 ∅) 97 (by decide)⟩

/-- C7: `guess_letter` and `reveal_count` fail with `InvalidLetterError`
exactly when the input is not a single alphabetic character; on failure the
game is unchanged (in this embedding an error result carries no successor
state, mirroring that Python raises before any mutation). -/
theorem C7_letter_validation (g : Game) (letter : PyStr) :
    (g.revealCount letter = .error .invalidLetter ↔
      ¬ ∃ c, letter = [c] ∧ isAlphaChar c = true) ∧
    (g.guessLetter letter = .error .invalidLetter ↔
      ¬ ∃ c, letter = [c] ∧ isAlphaChar c = true) := by
  match letter with
  | [] => simp [Game.revealCount, Game.guessLetter]
  | [c] =>
    rcases hc : isAlphaChar c with _ | _
    · constructor
      · simp [Game.revealCount, hc]
      · simp [Game.guessLetter, hc]
    · constructor
      · rw [revealCount_eq g hc]
        constructor
        · intro h
          split at h <;> simp_all
        · intro h
          exact absurd ⟨c, rfl, hc⟩ h
      · rw [guessLetter_eq g hc]
        constructor
        · intro h
          split at h
          · simp_all
          · split at h <;> simp_all
        · intro h
          exact absurd ⟨c, rfl, hc⟩ h
  | c1 :: c2 :: rest => simp [Game.revealCount, Game.guessLetter]

/-- C10: an accepted answer with no alphabetic characters (e.g. `" "` or
`"123"`) yields a game that is already won, whose `current_state` is the
answer itself. -/
theorem C10_no_letters_already_won (A : PyStr) (L : Int) (hA : A ≠ [])
    (hno : ∀ c ∈ A, isAlphaChar c = false) :
    ∃ g, Game.new A L = .ok g ∧ g.isWon = true ∧ g.currentState = A := by
  refine ⟨⟨A, L, ∅⟩, by simp [Game.new, hA], ?_, ?_⟩
  · simp only [Game.isWon, List.all_eq_true]
    intro ch hch
    simp [hno ch hch]
  · unfold Game.currentState
    exact map_eq_self_of_forall (fun ch hch => by simp [hno ch hch])

/-- C10 witness: the answer `"123"`. -/
theorem C10_no_letters_already_won_witness :
    strToCodes "123" ≠ [] ∧ (∀ c ∈ strToCodes "123", isAlphaChar c = false) ∧
    ∃ g, Game.new (strToCodes "123") 6 = .ok g ∧ g.isWon = true ∧
      g.currentState = strToCodes "123" :=
  ⟨by decide, by decide,
    C10_no_letters_already_won (strToCodes "123") 6 (by decide) (by decide)⟩

/-! ### State-shape lemmas for operation sequences -/

/-- A successful `reveal_count` keeps the answer and either keeps the guessed
set or inserts one case-folded alphabetic letter. -/
theorem revealCount_state (g : Game) (letter : PyStr) :
    ∀ n g', g.revealCount letter = .ok (n, g') →
      g'.answer = g.answer ∧
      (g'.guessed = g.guessed ∨
        ∃ c, isAlphaChar c = true ∧ g'.guessed = insert (toLowerChar c) g.guessed) := by
  intro n g' h
  match letter with
  | [] => simp [Game.revealCount] at h
  | [c] =>
    rcases hc : isAlphaChar c with _ | _
    · simp [Game.revealCount, hc] at h
    · rw [revealCount_eq g hc] at h
      split at h
      · simp only [Except.ok.injEq, Prod.mk.injEq] at h
        obtain ⟨hn, hg⟩ := h
        subst hg
        exact ⟨rfl, Or.inl rfl⟩
      · simp only [Except.ok.injEq, Prod.mk.injEq] at h
        obtain ⟨hn, hg⟩ := h
        subst hg
        exact ⟨rfl, Or.inr ⟨c, hc, rfl⟩⟩
  | c1 :: c2 :: rest => simp [Game.revealCount] at h

/-- A successful `guess_letter` keeps the answer and either keeps the guessed
set or inserts one case-folded alphabetic letter. -/
theorem guessLetter_state (g : Game) (letter : PyStr) :
    ∀ b g', g.guessLetter letter = .ok (b, g') →
      g'.answer = g.answer ∧
      (g'.guessed = g.guessed ∨
        ∃ c, isAlphaChar c = true ∧ g'.guessed = insert (toLowerChar c) g.guessed) := by
  intro b g' h
  match letter with
  | [] => simp [Game.guessLetter] at h
  | [c] =>
    rcases hc : isAlphaChar c with _ | _
    · simp [Game.guessLetter, hc] at h
    · rw [guessLetter_eq g hc] at h
      split at h
      · simp only [Except.ok.injEq, Prod.mk.injEq] at h
        obtain ⟨hb, hg⟩ := h
        subst hg
        exact ⟨rfl, Or.inl rfl⟩
      · split at h <;>
        · simp only [Except.ok.injEq, Prod.mk.injEq] at h
          obtain ⟨hb, hg⟩ := h
          subst hg
          exact ⟨rfl, Or.inr ⟨c, hc, rfl⟩⟩
  | c1 :: c2 :: rest => simp [Game.guessLetter] at h

/-- A successful `guess_full` keeps the answer and either keeps the guessed
set or replaces it by `markAllGuessed`. -/
theorem guessFull_state (g : Game) (a : Option PyStr) :
    ∀ b g', g.guessFull a = .ok (b, g') →
      g'.answer = g.answer ∧
      (g'.guessed = g.guessed ∨ g'.guessed = markAllGuessed g.answer g.guessed) := by
  intro b g' h
  match a with
  | none => simp [Game.guessFull] at h
  | some s =>
    simp only [Game.guessFull] at h
    split at h
    · simp only [Except.ok.injEq, Prod.mk.injEq] at h
      obtain ⟨hb, hg⟩ := h
      subst hg
      exact ⟨rfl, Or.inr rfl⟩
    · simp only [Except.ok.injEq, Prod.mk.injEq] at h
      obtain ⟨hb, hg⟩ := h
      subst hg
      exact ⟨rfl, Or.inl rfl⟩

/-- One step never removes a guessed letter. -/
theorem applyOp_guessed_mono (g : Game) (op : Op) :
    g.guessed ⊆ (g.applyOp op).guessed := by
  cases op with
  | revealCount l =>
    simp only [Game.applyOp]
    rcases hres : g.revealCount l with e | p
    · exact fun x hx => hx
    · obtain ⟨n, g'⟩ := p
      rcases (revealCount_state g l n g' hres).2 with h | ⟨c, hc, h⟩
      · rw [h]
      · rw [h]
        exact Finset.subset_insert _ _
  | guessLetter l =>
    simp only [Game.applyOp]
    rcases hres : g.guessLetter l with e | p
    · exact fun x hx => hx
    · obtain ⟨b, g'⟩ := p
      rcases (guessLetter_state g l b g' hres).2 with h | ⟨c, hc, h⟩
      · rw [h]
      · rw [h]
        exact Finset.subset_insert _ _
  | guessFull a =>
    simp only [Game.applyOp]
    rcases hres : g.guessFull a with e | p
    · exact fun x hx => hx
    · obtain ⟨b, g'⟩ := p
      rcases (guessFull_state g a b g' hres).2 with h | h
      · rw [h]
      · rw [h]
        exact subset_markAllGuessed _ _
  | currentState => exact fun x hx => hx
  | isWon => exact fun x hx => hx
  | isLost => exact fun x hx => hx

/-- One step keeps every guessed element a lowercase letter. -/
theorem applyOp_guessed_lower (g : Game) (op : Op)
    (hg : ∀ x ∈ g.guessed, isLowerChar x = true) :
    ∀ x ∈ (g.applyOp op).guessed, isLowerChar x = true := by
  cases op with
  | revealCount l =>
    simp only [Game.applyOp]
    rcases hres : g.revealCount l with e | p
    · exact hg
    · obtain ⟨n, g'⟩ := p
      rcases (revealCount_state g l n g' hres).2 with h | ⟨c, hc, h⟩
      · rw [h]; exact hg
      · rw [h]
        intro x hx
        rcases Finset.mem_insert.mp hx with h' | h'
        · subst h'; exact isLowerChar_toLowerChar hc
        · exact hg x h'
  | guessLetter l =>
    simp only [Game.applyOp]
    rcases hres : g.guessLetter l with e | p
    · exact hg
    · obtain ⟨b, g'⟩ := p
      rcases (guessLetter_state g l b g' hres).2 with h | ⟨c, hc, h⟩
      · rw [h]; exact hg
      · rw [h]
        intro x hx
        rcases Finset.mem_insert.mp hx with h' | h'
        · subst h'; exact isLowerChar_toLowerChar hc
        · exact hg x h'
  | guessFull a =>
    simp only [Game.applyOp]
    rcases hres : g.guessFull a with e | p
    · exact hg
    · obtain ⟨b, g'⟩ := p
      rcases (guessFull_state g a b g' hres).2 with h | h
      · rw [h]; exact hg
      · rw [h]
        exact markAllGuessed_lower hg
  | currentState => exact hg
  | isWon => exact hg
  | isLost => exact hg

/-- A whole run never removes a guessed letter. -/
theorem run_guessed_mono (g : Game) (ops : List Op) :
    g.guessed ⊆ (g.run ops).guessed := by
  induction ops generalizing g with
  | nil => exact fun x hx => hx
  | cons op rest ih =>
    simp only [Game.run, List.foldl_cons]
    exact (applyOp_guessed_mono g op).trans (ih (g.applyOp op))

/-- A whole run keeps every guessed element a lowercase letter. -/
theorem run_guessed_lower (g : Game) (ops : List Op)
    (hg : ∀ x ∈ g.guessed, isLowerChar x = true) :
    ∀ x ∈ (g.run ops).guessed, isLowerChar x = true := by
  induction ops generalizing g with
  | nil => exact hg
  | cons op rest ih =>
    simp only [Game.run, List.foldl_cons]
    exact ih (g.applyOp op) (applyOp_guessed_lower g op hg)

/-- C8: along every operation sequence, each operation's resulting guessed
set contains the one before it (no operation removes an element), the final
guessed set contains the initial one, and — starting from a guessed set of
lowercase letters, as `Game.__init__`'s empty set is — every element stays a
lowercase letter. -/
theorem C8_guessed_monotone (g : Game) (ops : List Op)
    (hg : ∀ x ∈ g.guessed, isLowerChar x = true) :
    (∀ pre op post, ops = pre ++ op :: post →
      (g.run pre).guessed ⊆ ((g.run pre).applyOp op).guessed) ∧
    g.guessed ⊆ (g.run ops).guessed ∧
    (∀ x ∈ (g.run ops).guessed, isLowerChar x = true) :=
  ⟨fun pre op _ _ => applyOp_guessed_mono (g.run pre) op,
    run_guessed_mono g ops, run_guessed_lower g ops hg⟩

/-- C8 witness: the fresh `Game("Apple", 6)` run through a reveal, a wrong
letter, an invalid letter, a full guess and the queries. -/
theorem C8_guessed_monotone_witness :
    (∀ x ∈ (Game.mk (strToCodes "Apple") 6 ∅).guessed, isLowerChar x = true) ∧
    ((∀ pre op post,
      ([Op.revealCount [97], Op.guessLetter [122], Op.guessLetter [49],
        Op.guessFull (some (strToCodes "apple")), Op.currentState, Op.isWon, Op.isLost] =
          pre ++ op :: post) →
      ((Game.mk (strToCodes "Apple") 6 ∅).run pre).guessed ⊆
        (((Game.mk (strToCodes "Apple") 6 ∅).run pre).applyOp op).guessed) ∧
    (Game.mk (strToCodes "Apple") 6 ∅).guessed ⊆
      ((Game.mk (strToCodes "Apple") 6 ∅).run
        [Op.revealCount [97], Op.guessLetter [122], Op.guessLetter [49],
          Op.guessFull (some (strToCodes "apple")), Op.currentState, Op.isWon,
          Op.isLost]).guessed ∧
    (∀ x ∈ ((Game.mk (strToCodes "Apple") 6 ∅).run
        [Op.revealCount [97], Op.guessLetter [122], Op.guessLetter [49],
          Op.guessFull (some (strToCodes "apple")), Op.currentState, Op.isWon,
          Op.isLost]).guessed, isLowerChar x = true)) :=
  ⟨by simp,
    C8_guessed_monotone (Game.mk (strToCodes "Apple") 6 ∅)
      [Op.revealCount [97], Op.guessLetter [122], Op.guessLetter [49],
        Op.guessFull (some (strToCodes "apple")), Op.currentState, Op.isWon, Op.isLost]
      (by simp)⟩

end Hangman
